import Mathlib

/-!
Shallow embedding of the simulation core of `bevy_snake` (src/main.rs).

The Bevy entity/component store is modelled explicitly: a `World` carries an
association list from entity ids to `Position` components, the list of
entities holding a `SnakeHead` component (with its direction), the sets of
entities tagged `SnakeSegment` and `Food`, and the two resources
`SnakeSegments` (the ordered chain of entity ids) and `LastTailPosition`.
Systems become functions on `World`; a system that can panic (`.unwrap()`)
returns an `Option`.  Event writers are modelled by returning the number of
events sent; event readers take that number as an argument, and the source's
`reader.iter().next().is_some()` becomes `1 ≤ n`.
-/

namespace BevySnake

/-- Source: `const ARENA_WIDTH: u32 = 10;` (used via `as i32` / `as f32`). -/
def ARENA_WIDTH : Int := 10

/-- Source: `const ARENA_HEIGHT: u32 = 10;` -/
def ARENA_HEIGHT : Int := 10

/-- Source: `struct Position { x: i32, y: i32 }`. -/
structure Position where
  x : Int
  y : Int
deriving DecidableEq

/-- Source: `enum Direction { Left, Right, Up, Down }`. -/
inductive Direction where
  | Left
  | Right
  | Up
  | Down
deriving DecidableEq

/-- Source: `Direction::opposite`. -/
def Direction.opposite : Direction → Direction
  | .Left => .Right
  | .Right => .Left
  | .Up => .Down
  | .Down => .Up

/-- Entity ids, allocated monotonically by the store. -/
abbrev Entity := Nat

/-- The entity/component store and the resources the core uses.
`positions` is the `Position` component table, `heads` the `SnakeHead`
component table (its payload is the current direction), `segmentTags` and
`foods` the sets of entities carrying the `SnakeSegment` and `Food` tags,
`snakeSegments` the `SnakeSegments` resource and `lastTailPosition` the
`LastTailPosition` resource.  `nextId` is the id allocator. -/
structure World where
  nextId : Entity
  positions : List (Entity × Position)
  heads : List (Entity × Direction)
  segmentTags : List Entity
  foods : List Entity
  snakeSegments : List Entity
  lastTailPosition : Option Position
deriving DecidableEq

/-- Component-table lookup (the read half of `positions.get_mut(e)`). -/
def lookupPos : List (Entity × Position) → Entity → Option Position
  | [], _ => none
  | q :: rest, e => if q.1 = e then some q.2 else lookupPos rest e

/-- `positions.get(e)` on a world. `none` models a missing component, which
the source turns into a panic via `.unwrap()`. -/
def getPosition (w : World) (e : Entity) : Option Position :=
  lookupPos w.positions e

/-- Component-table update (the write half of `positions.get_mut(e)`):
overwrite the entry for `e`, leaving every other entry alone. -/
def setPos : List (Entity × Position) → Entity → Position → List (Entity × Position)
  | [], _, _ => []
  | q :: rest, e, p => (if q.1 = e then (e, p) else q) :: setPos rest e p

/-- Write a `Position` component on a world. -/
def setPosition (w : World) (e : Entity) (p : Position) : World :=
  { w with positions := setPos w.positions e p }

/-- Remove an entity and all its components (`commands.entity(e).despawn()`).
The `SnakeSegments` resource is a plain list of ids and is not touched by a
despawn, exactly as in the source. -/
def despawn (w : World) (e : Entity) : World :=
  { w with
    positions := w.positions.filter (fun q => q.1 != e)
    heads := w.heads.filter (fun q => q.1 != e)
    segmentTags := w.segmentTags.filter (fun x => x != e)
    foods := w.foods.filter (fun x => x != e) }

/-- The `match &head.direction` block of `snake_movement`: one unit step. -/
def stepDir (d : Direction) (p : Position) : Position :=
  match d with
  | .Left => { p with x := p.x - 1 }
  | .Right => { p with x := p.x + 1 }
  | .Down => { p with y := p.y - 1 }
  | .Up => { p with y := p.y + 1 }

/-- The wrap block of `snake_movement` (lines 175-183), a single
`if / else if` chain.  The source compares `head_pos.x as u32 >= ARENA_WIDTH`;
that branch is only reached when `head_pos.x ≥ 0` (the `x < 0` branch was
taken otherwise), where the `as u32` cast is the identity, so `ARENA_WIDTH ≤ x`
is an exact translation; likewise for `y`. -/
def wrapHead (p : Position) : Position :=
  if p.x < 0 then { p with x := ARENA_WIDTH - 1 }
  else if p.y < 0 then { p with y := ARENA_HEIGHT - 1 }
  else if ARENA_WIDTH ≤ p.x then { p with x := 0 }
  else if ARENA_HEIGHT ≤ p.y then { p with y := 0 }
  else p

/-- The snapshot `segments.iter().map(|e| *positions.get_mut(*e).unwrap())`:
collect the positions of the chain in order; `none` models the panic when a
listed entity has no `Position`. -/
def snapshotPositions (w : World) : List Entity → Option (List Position)
  | [] => some []
  | e :: rest =>
    match getPosition w e, snapshotPositions w rest with
    | some p, some ps => some (p :: ps)
    | _, _ => none

/-- The body-shift loop of `snake_movement`: for each pair
`(previous_seg_pos, current_segment)` write the previous position onto the
current segment.  The in-loop `.unwrap()` cannot fail whenever the snapshot
succeeded, because `setPos` never changes the key set of the table. -/
def writeSegments (w : World) (L : List (Position × Entity)) : World :=
  L.foldl (fun acc pr => setPosition acc pr.2 pr.1) w

/-- Source: `fn snake_movement` (lines 153-198).  Returns the updated world
and whether a `GameOverEvent` was sent; `none` models a panic (a segment or
the head missing its `Position` component). -/
def snake_movement (w : World) : Option (World × Bool) :=
  match w.heads with
  | [] => some (w, false)
  | (head_entity, head) :: _ =>
    match snapshotPositions w w.snakeSegments, getPosition w head_entity with
    | some segment_positions, some old_head_pos =>
      let head_pos := wrapHead (stepDir head old_head_pos)
      let game_over_sent : Bool := decide (head_pos ∈ segment_positions)
      let w1 := setPosition w head_entity head_pos
      let w2 := writeSegments w1 (segment_positions.zip (w.snakeSegments.drop 1))
      some ({ w2 with lastTailPosition := segment_positions.getLast? }, game_over_sent)
    | _, _ => none

/-- The set of currently pressed arrow keys (`keyboard.pressed(...)`). -/
structure KeysPressed where
  left : Bool
  right : Bool
  down : Bool
  up : Bool
deriving DecidableEq

/-- The `if / else if` chain of `snake_movement_input` producing the
candidate direction: priority Left, Right, Down, Up; otherwise keep the
current direction. -/
def resolveKeyboardDirection (keys : KeysPressed) (current : Direction) : Direction :=
  if keys.left then .Left
  else if keys.right then .Right
  else if keys.down then .Down
  else if keys.up then .Up
  else current

/-- Source: `fn snake_movement_input` (lines 200-220). -/
def snake_movement_input (keys : KeysPressed) (w : World) : World :=
  match w.heads with
  | [] => w
  | (e, dir) :: rest =>
    let keyboard_direction := resolveKeyboardDirection keys dir
    if keyboard_direction ≠ dir.opposite then
      { w with heads := (e, keyboard_direction) :: rest }
    else w

/-- The key set holding exactly one direction pressed. -/
def keysFor : Direction → KeysPressed
  | .Left => ⟨true, false, false, false⟩
  | .Right => ⟨false, true, false, false⟩
  | .Down => ⟨false, false, true, false⟩
  | .Up => ⟨false, false, false, true⟩

/-- Source: `fn spawn_segment` (lines 228-241): spawn an entity with the
`SnakeSegment` tag and the given position, returning its id. -/
def spawn_segment (w : World) (position : Position) : World × Entity :=
  let e := w.nextId
  ({ w with
      nextId := e + 1
      positions := w.positions ++ [(e, position)]
      segmentTags := w.segmentTags ++ [e] }, e)

/-- Source: `fn spawn_snake` (lines 126-151): spawn the head at (3,3) facing
`Up`, spawn one body segment at (3,2), and replace the `SnakeSegments`
resource wholesale with the two fresh ids. -/
def spawn_snake (w : World) : World :=
  let head_entity := w.nextId
  let w1 : World :=
    { w with
        nextId := head_entity + 1
        positions := w.positions ++ [(head_entity, ⟨3, 3⟩)]
        heads := w.heads ++ [(head_entity, Direction.Up)]
        segmentTags := w.segmentTags ++ [head_entity] }
  let sb := spawn_segment w1 ⟨3, 2⟩
  { sb.1 with snakeSegments := [head_entity, sb.2] }

/-- Source: `fn food_spawner` (lines 246-261).  `random::<f32>()` draws from
`[0, 1)`; it is modelled as a rational argument `rx` (resp. `ry`).  The
source computes `(rx * ARENA_WIDTH as f32) as i32`; the `as i32` cast
truncates toward zero, which on the nonnegative product is `Int.floor`. -/
def food_spawner (w : World) (rx ry : Rat) : World :=
  let e := w.nextId
  { w with
      nextId := e + 1
      positions := w.positions ++
        [(e, ⟨Int.floor (rx * (ARENA_WIDTH : Rat)), Int.floor (ry * (ARENA_HEIGHT : Rat))⟩)]
      foods := w.foods ++ [e] }

/-- Source: `fn snake_eating` (lines 265-279): if some head has a position,
despawn every food at that position and send one `GrowthEvent` per food. -/
def snake_eating (w : World) : World × Nat :=
  match (w.heads.filterMap (fun h => getPosition w h.1)).head? with
  | none => (w, 0)
  | some head_pos =>
    let eaten := w.foods.filter (fun f => getPosition w f == some head_pos)
    (eaten.foldl despawn w, eaten.length)

/-- Source: `fn snake_growth` (lines 284-295).  `growthEvents` is the number
of `GrowthEvent`s sent this tick; the source only tests
`growth_reader.iter().next().is_some()`.  `none` models the panic of
`last_tail_position.0.unwrap()`. -/
def snake_growth (w : World) (growthEvents : Nat) : Option World :=
  if 1 ≤ growthEvents then
    match w.lastTailPosition with
    | none => none
    | some p =>
      let sb := spawn_segment w p
      some { sb.1 with snakeSegments := sb.1.snakeSegments ++ [sb.2] }
  else some w

/-- Source: `fn game_over` (lines 299-313).  `gameOverEvents` is the number
of `GameOverEvent`s sent this tick.  Despawn every `Food`-tagged and every
`SnakeSegment`-tagged entity, then rerun `spawn_snake`. -/
def game_over (w : World) (gameOverEvents : Nat) : World :=
  if 1 ≤ gameOverEvents then
    spawn_snake ((w.foods ++ w.segmentTags).foldl despawn w)
  else w

/-- Per-axis wrap as the specification words it: `wrap(coord, bound)` sends
a negative coordinate to `bound - 1` and a coordinate `≥ bound` to `0`,
applied independently to `x` against `ARENA_WIDTH` and to `y` against
`ARENA_HEIGHT`.  Used to compare the source's `else if` chain against the
spec's description of wrapping to the grid. -/
def wrapCoordPerAxis (c bound : Int) : Int :=
  if c < 0 then bound - 1 else if bound ≤ c then 0 else c

/-- The head target as the spec words it: one unit step, then wrap each axis. -/
def specHeadTarget (d : Direction) (p : Position) : Position :=
  ⟨wrapCoordPerAxis (stepDir d p).x ARENA_WIDTH, wrapCoordPerAxis (stepDir d p).y ARENA_HEIGHT⟩

/-- A position lies on the W x H grid. -/
abbrev inBounds (p : Position) : Prop :=
  0 ≤ p.x ∧ p.x < ARENA_WIDTH ∧ 0 ≤ p.y ∧ p.y < ARENA_HEIGHT

/-- Every entity position on the grid, and the cached tail position too. -/
abbrev WorldInBounds (w : World) : Prop :=
  (∀ q ∈ w.positions, inBounds q.2) ∧ (∀ p, w.lastTailPosition = some p → inBounds p)

/-! ### Store lemmas -/

theorem lookupPos_mem (l : List (Entity × Position)) (e : Entity) (p : Position)
    (h : lookupPos l e = some p) : (e, p) ∈ l := by
  induction l with
  | nil => simp [lookupPos] at h
  | cons q rest ih =>
    rcases q with ⟨a, b⟩
    simp only [lookupPos] at h
    by_cases hq : a = e
    · rw [if_pos hq] at h
      have hb : b = p := Option.some.inj h
      subst hq; subst hb
      exact List.mem_cons_self _ _
    · rw [if_neg hq] at h
      exact List.mem_cons_of_mem _ (ih h)

theorem mem_keys_of_lookupPos (l : List (Entity × Position)) (e : Entity) (p : Position)
    (h : lookupPos l e = some p) : e ∈ l.map Prod.fst := by
  exact List.mem_map.mpr ⟨(e, p), lookupPos_mem l e p h, rfl⟩

theorem lookupPos_eq_none_of_not_mem (l : List (Entity × Position)) (e : Entity)
    (h : e ∉ l.map Prod.fst) : lookupPos l e = none := by
  induction l with
  | nil => rfl
  | cons q rest ih =>
    simp only [List.map_cons, List.mem_cons] at h
    push_neg at h
    simp [lookupPos, Ne.symm h.1, ih h.2]

theorem lookupPos_append_of_none (l₁ l₂ : List (Entity × Position)) (e : Entity)
    (h : lookupPos l₁ e = none) : lookupPos (l₁ ++ l₂) e = lookupPos l₂ e := by
  induction l₁ with
  | nil => rfl
  | cons q rest ih =>
    simp only [lookupPos] at h
    simp only [List.cons_append, lookupPos]
    by_cases hq : q.1 = e
    · rw [if_pos hq] at h; exact absurd h (by simp)
    · rw [if_neg hq] at h ⊢
      exact ih h

theorem setPos_keys (l : List (Entity × Position)) (e : Entity) (p : Position) :
    (setPos l e p).map Prod.fst = l.map Prod.fst := by
  induction l with
  | nil => rfl
  | cons q rest ih =>
    simp only [setPos, List.map_cons, ih]
    by_cases h : q.1 = e
    · rw [if_pos h]; simp [h]
    · rw [if_neg h]

theorem mem_setPos (l : List (Entity × Position)) (e : Entity) (p : Position)
    (q : Entity × Position) (h : q ∈ setPos l e p) : q = (e, p) ∨ q ∈ l := by
  induction l with
  | nil => simp [setPos] at h
  | cons r rest ih =>
    simp only [setPos] at h
    rcases List.mem_cons.mp h with h1 | h1
    · by_cases hr : r.1 = e
      · rw [if_pos hr] at h1; exact Or.inl h1
      · rw [if_neg hr] at h1
        exact Or.inr (h1 ▸ List.mem_cons_self _ _)
    · rcases ih h1 with h2 | h2
      · exact Or.inl h2
      · exact Or.inr (List.mem_cons_of_mem _ h2)

theorem lookupPos_setPos_self (l : List (Entity × Position)) (e : Entity) (p : Position)
    (h : e ∈ l.map Prod.fst) : lookupPos (setPos l e p) e = some p := by
  induction l with
  | nil => simp at h
  | cons q rest ih =>
    by_cases hq : q.1 = e
    · simp [setPos, lookupPos, hq]
    · have hmem : e ∈ rest.map Prod.fst := by
        simp only [List.map_cons, List.mem_cons] at h
        rcases h with h1 | h1
        · exact absurd h1.symm hq
        · exact h1
      simp [setPos, lookupPos, hq, ih hmem]

theorem lookupPos_setPos_ne (l : List (Entity × Position)) (e e' : Entity) (p : Position)
    (h : e' ≠ e) : lookupPos (setPos l e p) e' = lookupPos l e' := by
  induction l with
  | nil => rfl
  | cons q rest ih =>
    by_cases hq : q.1 = e
    · have hne : ¬(e = e') := fun hh => h hh.symm
      simp [setPos, lookupPos, hq, hne, ih]
    · simp only [setPos, if_neg hq, lookupPos, ih]

/-! ### World-level store lemmas -/

theorem getPosition_setPosition_self (w : World) (e : Entity) (p : Position)
    (h : e ∈ w.positions.map Prod.fst) : getPosition (setPosition w e p) e = some p :=
  lookupPos_setPos_self w.positions e p h

theorem getPosition_setPosition_ne (w : World) (e e' : Entity) (p : Position)
    (h : e' ≠ e) : getPosition (setPosition w e p) e' = getPosition w e' :=
  lookupPos_setPos_ne w.positions e e' p h

theorem writeSegments_same : ∀ (L : List (Position × Entity)) (w : World),
    (writeSegments w L).heads = w.heads ∧
    (writeSegments w L).snakeSegments = w.snakeSegments ∧
    (writeSegments w L).lastTailPosition = w.lastTailPosition ∧
    (writeSegments w L).nextId = w.nextId ∧
    (writeSegments w L).foods = w.foods ∧
    (writeSegments w L).segmentTags = w.segmentTags
  | [], _ => ⟨rfl, rfl, rfl, rfl, rfl, rfl⟩
  | pr :: L, w => writeSegments_same L (setPosition w pr.2 pr.1)

theorem writeSegments_keys : ∀ (L : List (Position × Entity)) (w : World),
    (writeSegments w L).positions.map Prod.fst = w.positions.map Prod.fst
  | [], _ => rfl
  | pr :: L, w =>
    (writeSegments_keys L (setPosition w pr.2 pr.1)).trans
      (setPos_keys w.positions pr.2 pr.1)

theorem getPosition_writeSegments_notMem :
    ∀ (L : List (Position × Entity)) (w : World) (e : Entity),
      e ∉ L.map Prod.snd → getPosition (writeSegments w L) e = getPosition w e := by
  intro L
  induction L with
  | nil => intro w e _; rfl
  | cons pr L ih =>
    intro w e h
    simp only [List.map_cons, List.mem_cons] at h
    push_neg at h
    have h2 := ih (setPosition w pr.2 pr.1) e h.2
    exact h2.trans (getPosition_setPosition_ne w pr.2 e pr.1 h.1)

theorem getPosition_writeSegments_mem :
    ∀ (L : List (Position × Entity)) (w : World) (p : Position) (e : Entity),
      (L.map Prod.snd).Nodup → (p, e) ∈ L → e ∈ w.positions.map Prod.fst →
      getPosition (writeSegments w L) e = some p := by
  intro L
  induction L with
  | nil => intro w p e _ h _; simp at h
  | cons pr L ih =>
    intro w p e hnd hmem hkey
    rw [List.map_cons, List.nodup_cons] at hnd
    rcases List.mem_cons.mp hmem with h1 | h1
    · have hnot : e ∉ L.map Prod.snd := by rw [← h1] at hnd; exact hnd.1
      have hmain := getPosition_writeSegments_notMem L (setPosition w e p) e hnot
      rw [← h1]
      exact hmain.trans (getPosition_setPosition_self w e p hkey)
    · have hkey2 : e ∈ (setPosition w pr.2 pr.1).positions.map Prod.fst := by
        rw [show (setPosition w pr.2 pr.1).positions = setPos w.positions pr.2 pr.1 from rfl,
          setPos_keys]
        exact hkey
      exact ih (setPosition w pr.2 pr.1) p e hnd.2 h1 hkey2

theorem mem_writeSegments :
    ∀ (L : List (Position × Entity)) (w : World) (q : Entity × Position),
      q ∈ (writeSegments w L).positions →
      (∃ pr, pr ∈ L ∧ q = (pr.2, pr.1)) ∨ q ∈ w.positions := by
  intro L
  induction L with
  | nil => intro w q h; exact Or.inr h
  | cons pr L ih =>
    intro w q h
    rcases ih (setPosition w pr.2 pr.1) q h with h1 | h1
    · rcases h1 with ⟨pr', hpr', hq⟩
      exact Or.inl ⟨pr', List.mem_cons_of_mem _ hpr', hq⟩
    · rcases mem_setPos w.positions pr.2 pr.1 q h1 with h2 | h2
      · exact Or.inl ⟨pr, List.mem_cons_self _ _, h2⟩
      · exact Or.inr h2

/-! ### Snapshot lemmas -/

theorem snapshotPositions_cons (w : World) (e : Entity) (rest : List Entity)
    (prev : List Position) (h : snapshotPositions w (e :: rest) = some prev) :
    ∃ p ps, getPosition w e = some p ∧ snapshotPositions w rest = some ps ∧ prev = p :: ps := by
  simp only [snapshotPositions] at h
  cases hg : getPosition w e with
  | none => rw [hg] at h; simp at h
  | some p =>
    cases hs : snapshotPositions w rest with
    | none => rw [hg, hs] at h; simp at h
    | some ps =>
      rw [hg, hs] at h
      simp only [Option.some.injEq] at h
      exact ⟨p, ps, rfl, rfl, h.symm⟩

theorem snapshotPositions_length :
    ∀ (segs : List Entity) (w : World) (prev : List Position),
      snapshotPositions w segs = some prev → prev.length = segs.length := by
  intro segs
  induction segs with
  | nil =>
    intro w prev h
    simp only [snapshotPositions, Option.some.injEq] at h
    subst h
    rfl
  | cons e rest ih =>
    intro w prev h
    rcases snapshotPositions_cons w e rest prev h with ⟨p, ps, _, hs, hprev⟩
    subst hprev
    simp [ih w ps hs]

theorem snapshotPositions_get :
    ∀ (segs : List Entity) (w : World) (prev : List Position),
      snapshotPositions w segs = some prev →
      ∀ i (h1 : i < segs.length) (h2 : i < prev.length),
        getPosition w (segs.get ⟨i, h1⟩) = some (prev.get ⟨i, h2⟩) := by
  intro segs
  induction segs with
  | nil => intro w prev _ i h1; simp at h1
  | cons e rest ih =>
    intro w prev h i h1 h2
    rcases snapshotPositions_cons w e rest prev h with ⟨p, ps, hp, hs, hprev⟩
    subst hprev
    cases i with
    | zero => simpa using hp
    | succ j =>
      have hj1 : j < rest.length := by simpa using h1
      have hj2 : j < ps.length := by simpa using h2
      simpa using ih w ps hs j hj1 hj2

theorem snapshotPositions_mem :
    ∀ (segs : List Entity) (w : World) (prev : List Position) (p : Position),
      snapshotPositions w segs = some prev → p ∈ prev →
      ∃ e, e ∈ segs ∧ getPosition w e = some p := by
  intro segs
  induction segs with
  | nil =>
    intro w prev p h hmem
    simp only [snapshotPositions, Option.some.injEq] at h
    rw [← h] at hmem
    simp at hmem
  | cons e rest ih =>
    intro w prev p h hmem
    rcases snapshotPositions_cons w e rest prev h with ⟨q, ps, hq, hs, hprev⟩
    subst hprev
    rcases List.mem_cons.mp hmem with h1 | h1
    · exact ⟨e, List.mem_cons_self _ _, h1 ▸ hq⟩
    · rcases ih w ps p hs h1 with ⟨e', he', hval⟩
      exact ⟨e', List.mem_cons_of_mem _ he', hval⟩

/-! ### Movement lemmas -/

theorem snake_movement_eq (w : World) (h : Entity) (d : Direction)
    (hs : List (Entity × Direction)) (prev : List Position) (p0 : Position)
    (hheads : w.heads = (h, d) :: hs)
    (hsnap : snapshotPositions w w.snakeSegments = some prev)
    (hget : getPosition w h = some p0) :
    snake_movement w = some
      ({ writeSegments (setPosition w h (wrapHead (stepDir d p0)))
           (prev.zip (w.snakeSegments.drop 1)) with
         lastTailPosition := prev.getLast? },
       decide (wrapHead (stepDir d p0) ∈ prev)) := by
  unfold snake_movement
  rw [hheads]
  dsimp only
  rw [hsnap, hget]

theorem wrapHead_eq_spec (d : Direction) (p : Position) (h : inBounds p) :
    wrapHead (stepDir d p) = specHeadTarget d p := by
  rcases p with ⟨x, y⟩
  obtain ⟨hx0, hxW, hy0, hyH⟩ := h
  have h1 : 0 ≤ x := hx0
  have h2 : x < 10 := hxW
  have h3 : 0 ≤ y := hy0
  have h4 : y < 10 := hyH
  clear hx0 hxW hy0 hyH
  cases d <;>
    simp only [stepDir, wrapHead, specHeadTarget, wrapCoordPerAxis,
      ARENA_WIDTH, ARENA_HEIGHT] <;>
    split_ifs <;>
    first
    | rfl
    | (simp only [Position.mk.injEq] at *; omega)

theorem stepDir_wrapHead_inBounds (d : Direction) (p : Position) (h : inBounds p) :
    inBounds (wrapHead (stepDir d p)) := by
  rcases p with ⟨x, y⟩
  obtain ⟨hx0, hxW, hy0, hyH⟩ := h
  have h1 : 0 ≤ x := hx0
  have h2 : x < 10 := hxW
  have h3 : 0 ≤ y := hy0
  have h4 : y < 10 := hyH
  clear hx0 hxW hy0 hyH
  cases d <;>
    simp only [stepDir, wrapHead] <;>
    split_ifs <;>
    (simp only [inBounds, ARENA_WIDTH, ARENA_HEIGHT] at *; omega)

theorem get_mem_zip {α β : Type} :
    ∀ (l₁ : List α) (l₂ : List β) (i : Nat) (h1 : i < l₁.length) (h2 : i < l₂.length),
      (l₁.get ⟨i, h1⟩, l₂.get ⟨i, h2⟩) ∈ l₁.zip l₂ := by
  intro l₁
  induction l₁ with
  | nil => intro l₂ i h1; simp at h1
  | cons a l₁ ih =>
    intro l₂ i h1 h2
    cases l₂ with
    | nil => simp at h2
    | cons b l₂ =>
      cases i with
      | zero => exact List.mem_cons_self _ _
      | succ j =>
        exact List.mem_cons_of_mem _
          (ih l₂ j (Nat.lt_of_succ_lt_succ h1) (Nat.lt_of_succ_lt_succ h2))

/-- Shared description of one successful movement tick on a well-formed
snake: the exact return value, the head's stored position afterwards, and
the stored position of each body segment afterwards. -/
theorem movement_result_aux (w : World) (h : Entity) (d : Direction)
    (hs : List (Entity × Direction)) (rest : List Entity)
    (prev : List Position) (p0 : Position)
    (hheads : w.heads = (h, d) :: hs)
    (hsegs : w.snakeSegments = h :: rest)
    (hnodup : (h :: rest).Nodup)
    (hsnap : snapshotPositions w (h :: rest) = some prev)
    (hp0 : getPosition w h = some p0) :
    snake_movement w = some
      ({ writeSegments (setPosition w h (wrapHead (stepDir d p0))) (prev.zip rest) with
         lastTailPosition := prev.getLast? },
       decide (wrapHead (stepDir d p0) ∈ prev))
    ∧ getPosition
        (writeSegments (setPosition w h (wrapHead (stepDir d p0))) (prev.zip rest)) h
        = some (wrapHead (stepDir d p0))
    ∧ ∀ i (hi : i < rest.length) (hi2 : i < prev.length),
        getPosition
          (writeSegments (setPosition w h (wrapHead (stepDir d p0))) (prev.zip rest))
          (rest.get ⟨i, hi⟩)
        = some (prev.get ⟨i, hi2⟩) := by
  have hsnap' : snapshotPositions w w.snakeSegments = some prev := by
    rw [hsegs]; exact hsnap
  have hlen : prev.length = rest.length + 1 := by
    simpa using snapshotPositions_length (h :: rest) w prev hsnap
  have hrle : rest.length ≤ prev.length := by omega
  have hmapsnd : (prev.zip rest).map Prod.snd = rest := List.map_snd_zip prev rest hrle
  have hnodup' := List.nodup_cons.mp hnodup
  have hkey : h ∈ w.positions.map Prod.fst := mem_keys_of_lookupPos w.positions h p0 hp0
  refine ⟨?_, ?_, ?_⟩
  · have := snake_movement_eq w h d hs prev p0 hheads hsnap' hp0
    rw [hsegs] at this
    exact this
  · have hnot : h ∉ (prev.zip rest).map Prod.snd := by rw [hmapsnd]; exact hnodup'.1
    rw [getPosition_writeSegments_notMem (prev.zip rest) _ h hnot]
    exact getPosition_setPosition_self w h _ hkey
  · intro i hi hi2
    have hmem : (prev.get ⟨i, hi2⟩, rest.get ⟨i, hi⟩) ∈ prev.zip rest :=
      get_mem_zip prev rest i hi2 hi
    have hnd : ((prev.zip rest).map Prod.snd).Nodup := by rw [hmapsnd]; exact hnodup'.2
    have hgi : getPosition w (rest.get ⟨i, hi⟩) = some (prev.get ⟨i + 1, by omega⟩) := by
      have := snapshotPositions_get (h :: rest) w prev hsnap (i + 1)
        (by simpa using Nat.succ_lt_succ hi) (by omega)
      simpa using this
    have hkey2 : rest.get ⟨i, hi⟩ ∈
        (setPosition w h (wrapHead (stepDir d p0))).positions.map Prod.fst := by
      rw [show (setPosition w h (wrapHead (stepDir d p0))).positions
            = setPos w.positions h (wrapHead (stepDir d p0)) from rfl, setPos_keys]
      exact mem_keys_of_lookupPos w.positions _ _ hgi
    exact getPosition_writeSegments_mem (prev.zip rest) _ _ _ hnd hmem hkey2

/-- The world right after startup (`spawn_snake` run on an empty store). -/
def sampleWorld : World where
  nextId := 2
  positions := [(0, ⟨3, 3⟩), (1, ⟨3, 2⟩)]
  heads := [(0, Direction.Up)]
  segmentTags := [0, 1]
  foods := []
  snakeSegments := [0, 1]
  lastTailPosition := none

/-- `sampleWorld` after one movement tick (head moved up, body followed). -/
def sampleWorldMoved : World where
  nextId := 2
  positions := [(0, ⟨3, 4⟩), (1, ⟨3, 3⟩)]
  heads := [(0, Direction.Up)]
  segmentTags := [0, 1]
  foods := []
  snakeSegments := [0, 1]
  lastTailPosition := some ⟨3, 2⟩

/-- A snake about to run into its own body: head at (3,3) facing up, body
segment at (3,4). -/
def collisionWorld : World where
  nextId := 2
  positions := [(0, ⟨3, 3⟩), (1, ⟨3, 4⟩)]
  heads := [(0, Direction.Up)]
  segmentTags := [0, 1]
  foods := []
  snakeSegments := [0, 1]
  lastTailPosition := none

/-- `collisionWorld` after the movement tick that detects the collision. -/
def collisionWorldMoved : World where
  nextId := 2
  positions := [(0, ⟨3, 4⟩), (1, ⟨3, 3⟩)]
  heads := [(0, Direction.Up)]
  segmentTags := [0, 1]
  foods := []
  snakeSegments := [0, 1]
  lastTailPosition := some ⟨3, 4⟩

/-- A world whose `SnakeSegments` resource is empty while a `SnakeHead`
entity still exists. -/
def headOnlyWorld : World where
  nextId := 1
  positions := [(0, ⟨3, 3⟩)]
  heads := [(0, Direction.Up)]
  segmentTags := [0]
  foods := []
  snakeSegments := []
  lastTailPosition := none

/-- Claim C1: on every movement tick of a snake with at least one segment
(the head, listed first in SnakeSegments), after snake_movement runs, the
body segment at chain index i (i at least 1) occupies the pre-move position
of segment i-1, and the head occupies its pre-move position shifted one
unit in its current direction and then wrapped independently per axis to
the W x H grid (so a head at x=0 moving Left ends at x = W-1 with y
unchanged, and symmetrically for all four edges and directions). -/
theorem snake_movement_chain_follow
    (w : World) (h : Entity) (d : Direction) (hs : List (Entity × Direction))
    (rest : List Entity) (prev : List Position) (p0 : Position)
    (hheads : w.heads = (h, d) :: hs)
    (hsegs : w.snakeSegments = h :: rest)
    (hnodup : (h :: rest).Nodup)
    (hsnap : snapshotPositions w (h :: rest) = some prev)
    (hp0 : getPosition w h = some p0)
    (hbound : inBounds p0)
    (w' : World) (ev : Bool)
    (hrun : snake_movement w = some (w', ev)) :
    getPosition w' h = some (specHeadTarget d p0) ∧
    ∀ i (hi : i < rest.length) (hi2 : i < prev.length),
      getPosition w' (rest.get ⟨i, hi⟩) = some (prev.get ⟨i, hi2⟩) := by
  obtain ⟨hret, hhead, hshift⟩ :=
    movement_result_aux w h d hs rest prev p0 hheads hsegs hnodup hsnap hp0
  rw [hret] at hrun
  injection hrun with hpair
  dsimp only at hpair
  injection hpair with hw hev
  subst hw
  constructor
  · rw [← wrapHead_eq_spec d p0 hbound]
    exact hhead
  · intro i hi hi2
    exact hshift i hi hi2

/-- Witness for C1 at the startup world: one tick moves the head from (3,3)
to (3,4) and the body segment from (3,2) to (3,3). -/
theorem snake_movement_chain_follow_witness :
    snake_movement sampleWorld = some (sampleWorldMoved, false) ∧
    getPosition sampleWorldMoved 0 = some ⟨3, 4⟩ ∧
    getPosition sampleWorldMoved 1 = some ⟨3, 3⟩ := by
  have hrun : snake_movement sampleWorld = some (sampleWorldMoved, false) := by decide
  have h := snake_movement_chain_follow sampleWorld 0 Direction.Up [] [1]
    [⟨3, 3⟩, ⟨3, 2⟩] ⟨3, 3⟩ rfl rfl (by decide) (by decide) rfl (by decide)
    sampleWorldMoved false hrun
  have h1 := h.1
  rw [show specHeadTarget Direction.Up ⟨3, 3⟩ = (⟨3, 4⟩ : Position) from by decide] at h1
  exact ⟨hrun, h1, h.2 0 (by decide) (by decide)⟩

/-- Claim C2: a movement tick sends a GameOverEvent exactly when the new
(post-wrap) head position occurs in the snapshot of pre-move segment
positions (whose first entry is the pre-move head position); the detection
does not stop the tick: LastTailPosition is still recorded, the body still
shifts, and the stored head position (which eating reads) is the new one. -/
theorem snake_movement_game_over_detection
    (w : World) (h : Entity) (d : Direction) (hs : List (Entity × Direction))
    (rest : List Entity) (prev : List Position) (p0 : Position)
    (hheads : w.heads = (h, d) :: hs)
    (hsegs : w.snakeSegments = h :: rest)
    (hnodup : (h :: rest).Nodup)
    (hsnap : snapshotPositions w (h :: rest) = some prev)
    (hp0 : getPosition w h = some p0)
    (w' : World) (ev : Bool)
    (hrun : snake_movement w = some (w', ev)) :
    (ev = true ↔ wrapHead (stepDir d p0) ∈ prev) ∧
    w'.lastTailPosition = prev.getLast? ∧
    getPosition w' h = some (wrapHead (stepDir d p0)) ∧
    ∀ i (hi : i < rest.length) (hi2 : i < prev.length),
      getPosition w' (rest.get ⟨i, hi⟩) = some (prev.get ⟨i, hi2⟩) := by
  obtain ⟨hret, hhead, hshift⟩ :=
    movement_result_aux w h d hs rest prev p0 hheads hsegs hnodup hsnap hp0
  rw [hret] at hrun
  injection hrun with hpair
  dsimp only at hpair
  injection hpair with hw hev
  subst hw
  subst hev
  exact ⟨⟨of_decide_eq_true, decide_eq_true⟩, rfl, hhead, hshift⟩

/-- Witness for C2: moving the head of `collisionWorld` onto its body cell
(3,4) sends the event, yet the tail position is still recorded and the head
position is still updated. -/
theorem snake_movement_game_over_detection_witness :
    snake_movement collisionWorld = some (collisionWorldMoved, true) ∧
    collisionWorldMoved.lastTailPosition = some ⟨3, 4⟩ ∧
    getPosition collisionWorldMoved 0 = some ⟨3, 4⟩ := by
  have hrun : snake_movement collisionWorld = some (collisionWorldMoved, true) := by decide
  have h := snake_movement_game_over_detection collisionWorld 0 Direction.Up [] [1]
    [⟨3, 3⟩, ⟨3, 4⟩] ⟨3, 3⟩ rfl rfl (by decide) (by decide) rfl
    collisionWorldMoved true hrun
  have hhead := h.2.2.1
  rw [show wrapHead (stepDir Direction.Up ⟨3, 3⟩) = (⟨3, 4⟩ : Position) from by decide] at hhead
  exact ⟨hrun, by decide, hhead⟩

/-- `sampleWorldMoved` after one growth event appended a segment at the
recorded tail position (3,2). -/
def sampleWorldGrown : World where
  nextId := 3
  positions := [(0, ⟨3, 4⟩), (1, ⟨3, 3⟩), (2, ⟨3, 2⟩)]
  heads := [(0, Direction.Up)]
  segmentTags := [0, 1, 2]
  foods := []
  snakeSegments := [0, 1, 2]
  lastTailPosition := some ⟨3, 2⟩

theorem snake_movement_heads_nil (w : World) (hheads : w.heads = []) :
    snake_movement w = some (w, false) := by
  unfold snake_movement
  rw [hheads]

/-- Claim C10: with no SnakeHead entity present, a movement tick is a
complete no-op: the world (all positions, SnakeSegments, LastTailPosition)
is returned unchanged and no GameOverEvent is sent. -/
theorem snake_movement_no_head (w : World) (hheads : w.heads = []) :
    snake_movement w = some (w, false) :=
  snake_movement_heads_nil w hheads

/-- Witness for C10 on the startup world with its head entity removed. -/
theorem snake_movement_no_head_witness :
    snake_movement { sampleWorld with heads := [] }
      = some ({ sampleWorld with heads := [] }, false) :=
  snake_movement_no_head { sampleWorld with heads := [] } rfl

/-- Counterexample to claim C8 as stated: a world with zero snake segments
on which `snake_movement` completes normally (returns a value) instead of
aborting. -/
theorem snake_movement_empty_segments_no_abort :
    headOnlyWorld.snakeSegments = [] ∧ snake_movement headOnlyWorld ≠ none := by
  decide

/-- Claim C8 (amended): invoking the movement engine with zero snake
segments is not fatal: when a SnakeHead with a position is present, the
tick completes, the head still moves (wrapped), no GameOverEvent is sent,
and LastTailPosition is recorded as unset (None); the panic surfaces only
later, in the growth handler, if a GrowthEvent arrives while
LastTailPosition is None. -/
theorem snake_movement_empty_segments
    (w : World) (h : Entity) (d : Direction) (hs : List (Entity × Direction)) (p0 : Position)
    (hheads : w.heads = (h, d) :: hs)
    (hsegs : w.snakeSegments = [])
    (hp0 : getPosition w h = some p0) :
    snake_movement w =
      some ({ setPosition w h (wrapHead (stepDir d p0)) with lastTailPosition := none },
        false) := by
  have hsnap : snapshotPositions w w.snakeSegments = some [] := by rw [hsegs]; rfl
  have heq := snake_movement_eq w h d hs [] p0 hheads hsnap hp0
  rw [hsegs] at heq
  exact heq

/-- Witness for the amended C8 at `headOnlyWorld`. -/
theorem snake_movement_empty_segments_witness :
    snake_movement headOnlyWorld =
      some ({ setPosition headOnlyWorld 0 (wrapHead (stepDir Direction.Up ⟨3, 3⟩)) with
        lastTailPosition := none }, false) :=
  snake_movement_empty_segments headOnlyWorld 0 Direction.Up [] ⟨3, 3⟩ rfl rfl rfl

/-- Claim C7: the growth handler invoked with at least one GrowthEvent
while LastTailPosition is unset panics (returns no world); and after any
movement tick that actually ran (a head exists) on a non-empty
SnakeSegments chain, LastTailPosition is set, so that branch cannot fire. -/
theorem snake_growth_unset_tail_fatal :
    (∀ (w : World) (n : Nat), 1 ≤ n → w.lastTailPosition = none →
      snake_growth w n = none) ∧
    (∀ (w w' : World) (ev : Bool) (h : Entity) (d : Direction)
        (hs : List (Entity × Direction)) (n : Nat),
      w.heads = (h, d) :: hs → w.snakeSegments ≠ [] →
      snake_movement w = some (w', ev) → 1 ≤ n →
      (snake_growth w' n).isSome = true) := by
  constructor
  · intro w n hn hltp
    simp [snake_growth, hn, hltp]
  · intro w w' ev h d hs n hheads hsegs hrun hn
    cases hsnap : snapshotPositions w w.snakeSegments with
    | none =>
      unfold snake_movement at hrun
      rw [hheads] at hrun
      dsimp only at hrun
      rw [hsnap] at hrun
      cases hget : getPosition w h <;> rw [hget] at hrun <;> simp at hrun
    | some prev =>
      cases hget : getPosition w h with
      | none =>
        unfold snake_movement at hrun
        rw [hheads] at hrun
        dsimp only at hrun
        rw [hsnap, hget] at hrun
        simp at hrun
      | some p0 =>
        have heq := snake_movement_eq w h d hs prev p0 hheads hsnap hget
        rw [heq] at hrun
        injection hrun with hpair
        dsimp only at hpair
        injection hpair with hw hev
        have hltp : w'.lastTailPosition = prev.getLast? := by rw [← hw]
        have hprevne : prev ≠ [] := by
          intro hcon
          have hlen := snapshotPositions_length w.snakeSegments w prev hsnap
          rw [hcon] at hlen
          exact hsegs (List.eq_nil_of_length_eq_zero hlen.symm)
        obtain ⟨p, hp⟩ := Option.isSome_iff_exists.mp (List.getLast?_isSome.mpr hprevne)
        simp [snake_growth, hn, hltp, hp]

/-- Witness for C7: growth panics right after startup (no tail recorded),
and succeeds after the first movement tick. -/
theorem snake_growth_unset_tail_fatal_witness :
    snake_growth sampleWorld 1 = none ∧
    (snake_growth sampleWorldMoved 1).isSome = true := by
  have h := snake_growth_unset_tail_fatal
  constructor
  · exact h.1 sampleWorld 1 (by decide) rfl
  · exact h.2 sampleWorld sampleWorldMoved false 0 Direction.Up [] 1 rfl
      (by decide) (by decide) (by decide)

/-- Claim C4: with LastTailPosition recorded as p, any number n of
GrowthEvents with n at least 1 has the same effect as exactly one: exactly
one fresh segment is spawned at p and its id appended at the end of
SnakeSegments; with zero GrowthEvents nothing changes. -/
theorem snake_growth_appends_one
    (w : World) (n : Nat) (p : Position)
    (hp : w.lastTailPosition = some p)
    (hfresh : ∀ e ∈ w.positions.map Prod.fst, e < w.nextId) :
    (∀ w', snake_growth w n = some w' → 1 ≤ n →
      w'.snakeSegments = w.snakeSegments ++ [w.nextId] ∧
      w'.positions = w.positions ++ [(w.nextId, p)] ∧
      getPosition w' w.nextId = some p) ∧
    (1 ≤ n → snake_growth w n = snake_growth w 1) ∧
    snake_growth w 0 = some w := by
  refine ⟨?_, ?_, ?_⟩
  · intro w' hw' hn
    unfold snake_growth at hw'
    rw [if_pos hn, hp] at hw'
    dsimp only at hw'
    injection hw' with hw'
    subst hw'
    refine ⟨rfl, rfl, ?_⟩
    have hnone : lookupPos w.positions w.nextId = none :=
      lookupPos_eq_none_of_not_mem _ _ (fun hmem => lt_irrefl _ (hfresh _ hmem))
    show lookupPos (w.positions ++ [(w.nextId, p)]) w.nextId = some p
    rw [lookupPos_append_of_none _ _ _ hnone]
    simp [lookupPos]
  · intro hn
    unfold snake_growth
    rw [if_pos hn, if_pos (le_refl 1)]
  · simp [snake_growth]

/-- Witness for C4: two growth events right after the first tick behave
exactly like one, appending a single segment at (3,2). -/
theorem snake_growth_appends_one_witness :
    snake_growth sampleWorldMoved 2 = some sampleWorldGrown ∧
    sampleWorldGrown.snakeSegments = sampleWorldMoved.snakeSegments ++ [2] ∧
    getPosition sampleWorldGrown 2 = some ⟨3, 2⟩ ∧
    snake_growth sampleWorldMoved 2 = snake_growth sampleWorldMoved 1 ∧
    snake_growth sampleWorldMoved 0 = some sampleWorldMoved := by
  have h := snake_growth_appends_one sampleWorldMoved 2 ⟨3, 2⟩ rfl (by decide)
  have hrun : snake_growth sampleWorldMoved 2 = some sampleWorldGrown := by decide
  obtain ⟨h1, _, h3⟩ := h.1 sampleWorldGrown hrun (by decide)
  exact ⟨hrun, h1, h3, h.2.1 (by decide), h.2.2⟩

/-! ### Despawn and spawn lemmas -/

theorem mem_foods_despawn (w : World) (a x : Entity) (h : x ∈ (despawn w a).foods) :
    x ∈ w.foods := List.mem_of_mem_filter h

theorem mem_segmentTags_despawn (w : World) (a x : Entity)
    (h : x ∈ (despawn w a).segmentTags) : x ∈ w.segmentTags := List.mem_of_mem_filter h

theorem mem_positions_despawn (w : World) (a : Entity) (q : Entity × Position)
    (h : q ∈ (despawn w a).positions) : q ∈ w.positions := List.mem_of_mem_filter h

theorem mem_keys_despawn (w : World) (a e : Entity)
    (h : e ∈ (despawn w a).positions.map Prod.fst) : e ∈ w.positions.map Prod.fst := by
  rcases List.mem_map.mp h with ⟨q, hq, hqe⟩
  exact List.mem_map.mpr ⟨q, mem_positions_despawn w a q hq, hqe⟩

theorem despawn_removes_self (w : World) (a : Entity) :
    a ∉ (despawn w a).foods ∧ a ∉ (despawn w a).segmentTags ∧
    a ∉ (despawn w a).positions.map Prod.fst := by
  refine ⟨?_, ?_, ?_⟩
  · intro h
    have := (List.mem_filter.mp h).2
    simp at this
  · intro h
    have := (List.mem_filter.mp h).2
    simp at this
  · intro h
    rcases List.mem_map.mp h with ⟨q, hq, hqe⟩
    have := (List.mem_filter.mp hq).2
    rw [hqe] at this
    simp at this

theorem foldl_despawn_same : ∀ (L : List Entity) (w : World),
    (L.foldl despawn w).nextId = w.nextId ∧
    (L.foldl despawn w).snakeSegments = w.snakeSegments ∧
    (L.foldl despawn w).lastTailPosition = w.lastTailPosition
  | [], _ => ⟨rfl, rfl, rfl⟩
  | a :: L, w => foldl_despawn_same L (despawn w a)

theorem foldl_despawn_sub : ∀ (L : List Entity) (w : World) (x : Entity),
    (x ∈ (L.foldl despawn w).foods → x ∈ w.foods) ∧
    (x ∈ (L.foldl despawn w).segmentTags → x ∈ w.segmentTags) ∧
    (x ∈ (L.foldl despawn w).positions.map Prod.fst → x ∈ w.positions.map Prod.fst) := by
  intro L
  induction L with
  | nil => intro w x; exact ⟨id, id, id⟩
  | cons a L ih =>
    intro w x
    refine ⟨?_, ?_, ?_⟩
    · intro h; exact mem_foods_despawn w a x ((ih (despawn w a) x).1 h)
    · intro h; exact mem_segmentTags_despawn w a x ((ih (despawn w a) x).2.1 h)
    · intro h; exact mem_keys_despawn w a x ((ih (despawn w a) x).2.2 h)

theorem foldl_despawn_positions_sub : ∀ (L : List Entity) (w : World) (q : Entity × Position),
    q ∈ (L.foldl despawn w).positions → q ∈ w.positions := by
  intro L
  induction L with
  | nil => intro w q h; exact h
  | cons a L ih =>
    intro w q h
    exact mem_positions_despawn w a q (ih (despawn w a) q h)

theorem foldl_despawn_removes : ∀ (L : List Entity) (w : World) (e : Entity), e ∈ L →
    e ∉ (L.foldl despawn w).foods ∧ e ∉ (L.foldl despawn w).segmentTags ∧
    e ∉ (L.foldl despawn w).positions.map Prod.fst := by
  intro L
  induction L with
  | nil => intro w e h; simp at h
  | cons a L ih =>
    intro w e h
    rcases List.mem_cons.mp h with h1 | h1
    · subst h1
      refine ⟨?_, ?_, ?_⟩
      · intro hmem
        exact (despawn_removes_self w e).1 ((foldl_despawn_sub L (despawn w e) e).1 hmem)
      · intro hmem
        exact (despawn_removes_self w e).2.1 ((foldl_despawn_sub L (despawn w e) e).2.1 hmem)
      · intro hmem
        exact (despawn_removes_self w e).2.2 ((foldl_despawn_sub L (despawn w e) e).2.2 hmem)
    · exact ih (despawn w a) e h1

theorem foldl_despawn_foods_nil (L : List Entity) (w : World)
    (h : ∀ e ∈ w.foods, e ∈ L) : (L.foldl despawn w).foods = [] := by
  apply List.eq_nil_iff_forall_not_mem.mpr
  intro x hx
  exact (foldl_despawn_removes L w x (h x ((foldl_despawn_sub L w x).1 hx))).1 hx

theorem foldl_despawn_segmentTags_nil (L : List Entity) (w : World)
    (h : ∀ e ∈ w.segmentTags, e ∈ L) : (L.foldl despawn w).segmentTags = [] := by
  apply List.eq_nil_iff_forall_not_mem.mpr
  intro x hx
  exact (foldl_despawn_removes L w x (h x ((foldl_despawn_sub L w x).2.1 hx))).2.1 hx

theorem lookupPos_append_of_some (l₁ l₂ : List (Entity × Position)) (e : Entity) (p : Position)
    (h : lookupPos l₁ e = some p) : lookupPos (l₁ ++ l₂) e = some p := by
  induction l₁ with
  | nil => simp [lookupPos] at h
  | cons q rest ih =>
    simp only [lookupPos, List.cons_append] at h ⊢
    by_cases hq : q.1 = e
    · rw [if_pos hq] at h ⊢; exact h
    · rw [if_neg hq] at h ⊢; exact ih h

theorem lookupPos_append_singleton_ne (l : List (Entity × Position)) (a : Entity) (p : Position)
    (e : Entity) (h : e ≠ a) : lookupPos (l ++ [(a, p)]) e = lookupPos l e := by
  cases hq : lookupPos l e with
  | some p2 => exact lookupPos_append_of_some l [(a, p)] e p2 hq
  | none =>
    rw [lookupPos_append_of_none l [(a, p)] e hq]
    simp [lookupPos, Ne.symm h]

theorem spawn_snake_spec (v : World)
    (hkeys : ∀ e ∈ v.positions.map Prod.fst, e < v.nextId) :
    (spawn_snake v).snakeSegments = [v.nextId, v.nextId + 1] ∧
    (spawn_snake v).segmentTags = v.segmentTags ++ [v.nextId] ++ [v.nextId + 1] ∧
    (spawn_snake v).foods = v.foods ∧
    (spawn_snake v).heads = v.heads ++ [(v.nextId, Direction.Up)] ∧
    (spawn_snake v).positions
      = v.positions ++ [(v.nextId, ⟨3, 3⟩)] ++ [(v.nextId + 1, ⟨3, 2⟩)] ∧
    getPosition (spawn_snake v) v.nextId = some ⟨3, 3⟩ ∧
    getPosition (spawn_snake v) (v.nextId + 1) = some ⟨3, 2⟩ ∧
    (∀ e, e < v.nextId → getPosition (spawn_snake v) e = getPosition v e) ∧
    (spawn_snake v).lastTailPosition = v.lastTailPosition ∧
    (spawn_snake v).nextId = v.nextId + 2 := by
  have hvnone : lookupPos v.positions v.nextId = none :=
    lookupPos_eq_none_of_not_mem _ _ (fun hmem => lt_irrefl _ (hkeys _ hmem))
  have hvnone1 : lookupPos v.positions (v.nextId + 1) = none :=
    lookupPos_eq_none_of_not_mem _ _
      (fun hmem => Nat.lt_irrefl _ (Nat.lt_trans (Nat.lt_succ_self _) (hkeys _ hmem)))
  refine ⟨rfl, rfl, rfl, rfl, rfl, ?_, ?_, ?_, rfl, rfl⟩
  · show lookupPos ((v.positions ++ [(v.nextId, ⟨3, 3⟩)]) ++ [(v.nextId + 1, ⟨3, 2⟩)])
      v.nextId = some ⟨3, 3⟩
    rw [lookupPos_append_singleton_ne (v.positions ++ [(v.nextId, Position.mk 3 3)])
      (v.nextId + 1) (Position.mk 3 2) v.nextId (Nat.ne_of_lt (Nat.lt_succ_self v.nextId))]
    rw [lookupPos_append_of_none _ _ _ hvnone]
    simp [lookupPos]
  · show lookupPos ((v.positions ++ [(v.nextId, ⟨3, 3⟩)]) ++ [(v.nextId + 1, ⟨3, 2⟩)])
      (v.nextId + 1) = some ⟨3, 2⟩
    have hmid : lookupPos (v.positions ++ [(v.nextId, Position.mk 3 3)]) (v.nextId + 1)
        = none := by
      rw [lookupPos_append_of_none _ _ _ hvnone1]
      simp [lookupPos, Nat.ne_of_lt (Nat.lt_succ_self v.nextId)]
    rw [lookupPos_append_of_none _ _ _ hmid]
    simp [lookupPos]
  · intro e he
    show lookupPos ((v.positions ++ [(v.nextId, ⟨3, 3⟩)]) ++ [(v.nextId + 1, ⟨3, 2⟩)]) e
      = lookupPos v.positions e
    rw [lookupPos_append_singleton_ne (v.positions ++ [(v.nextId, Position.mk 3 3)])
      (v.nextId + 1) (Position.mk 3 2) e
      (Nat.ne_of_lt (Nat.lt_trans he (Nat.lt_succ_self _)))]
    rw [lookupPos_append_singleton_ne v.positions v.nextId (Position.mk 3 3) e
      (Nat.ne_of_lt he)]

/-- Claim C3: if at least one GameOverEvent arrived, the handler despawns
every Food-tagged and every SnakeSegment-tagged entity and then replaces
SnakeSegments wholesale with a fresh 2-segment chain: a head at (3,3)
facing Up and one body segment at (3,2); with no event, nothing changes. -/
theorem game_over_resets
    (w : World) (n : Nat)
    (hfreshP : ∀ e ∈ w.positions.map Prod.fst, e < w.nextId)
    (hfreshF : ∀ e ∈ w.foods, e < w.nextId)
    (hfreshS : ∀ e ∈ w.segmentTags, e < w.nextId) :
    (1 ≤ n →
      (game_over w n).foods = [] ∧
      (game_over w n).snakeSegments = [w.nextId, w.nextId + 1] ∧
      (game_over w n).segmentTags = [w.nextId, w.nextId + 1] ∧
      getPosition (game_over w n) w.nextId = some ⟨3, 3⟩ ∧
      getPosition (game_over w n) (w.nextId + 1) = some ⟨3, 2⟩ ∧
      (w.nextId, Direction.Up) ∈ (game_over w n).heads ∧
      (∀ e, e ∈ w.foods ∨ e ∈ w.segmentTags →
        getPosition (game_over w n) e = none ∧
        e ∉ (game_over w n).segmentTags ∧ e ∉ (game_over w n).foods)) ∧
    (n = 0 → game_over w n = w) := by
  constructor
  · intro hn
    unfold game_over
    rw [if_pos hn]
    have hsame := foldl_despawn_same (w.foods ++ w.segmentTags) w
    have hDkeys : ∀ e ∈ ((w.foods ++ w.segmentTags).foldl despawn w).positions.map Prod.fst,
        e < ((w.foods ++ w.segmentTags).foldl despawn w).nextId := by
      intro e he
      rw [hsame.1]
      exact hfreshP e ((foldl_despawn_sub _ w e).2.2 he)
    obtain ⟨hseg, htags, hfoods, hheads, _, hg1, hg2, hold, _, _⟩ :=
      spawn_snake_spec _ hDkeys
    have hfoodsD : ((w.foods ++ w.segmentTags).foldl despawn w).foods = [] :=
      foldl_despawn_foods_nil _ w (fun e he => List.mem_append_left _ he)
    have htagsD : ((w.foods ++ w.segmentTags).foldl despawn w).segmentTags = [] :=
      foldl_despawn_segmentTags_nil _ w (fun e he => List.mem_append_right _ he)
    refine ⟨?_, ?_, ?_, ?_, ?_, ?_, ?_⟩
    · rw [hfoods, hfoodsD]
    · rw [hseg, hsame.1]
    · rw [htags, htagsD, hsame.1]
      rfl
    · rw [← hsame.1]
      exact hg1
    · rw [← hsame.1]
      exact hg2
    · rw [hheads, ← hsame.1]
      exact List.mem_append_right _ (List.mem_singleton.mpr rfl)
    · intro e he
      have heL : e ∈ w.foods ++ w.segmentTags := by
        rcases he with h1 | h1
        · exact List.mem_append_left _ h1
        · exact List.mem_append_right _ h1
      have hrem := foldl_despawn_removes _ w e heL
      have helt : e < w.nextId := by
        rcases he with h1 | h1
        · exact hfreshF e h1
        · exact hfreshS e h1
      refine ⟨?_, ?_, ?_⟩
      · rw [hold e (by rw [hsame.1]; exact helt)]
        exact lookupPos_eq_none_of_not_mem _ _ hrem.2.2
      · intro hmem
        rw [htags, htagsD, hsame.1] at hmem
        simp at hmem
        rcases hmem with h2 | h2
        · subst h2
          exact Nat.lt_irrefl _ helt
        · subst h2
          exact Nat.lt_irrefl _ (Nat.lt_trans (Nat.lt_succ_self _) helt)
      · intro hmem
        rw [hfoods, hfoodsD] at hmem
        simp at hmem
  · intro h0
    subst h0
    simp [game_over]

/-- Witness for C3: one GameOverEvent on the startup world despawns the
old entities 0 and 1 and leaves a fresh chain of entities 2 and 3. -/
theorem game_over_resets_witness :
    (game_over sampleWorld 1).snakeSegments = [2, 3] ∧
    getPosition (game_over sampleWorld 1) 2 = some ⟨3, 3⟩ ∧
    getPosition (game_over sampleWorld 1) 3 = some ⟨3, 2⟩ ∧
    (game_over sampleWorld 1).foods = [] ∧
    getPosition (game_over sampleWorld 1) 0 = none ∧
    game_over sampleWorld 0 = sampleWorld := by
  have h := game_over_resets sampleWorld 1 (by decide) (by decide) (by decide)
  obtain ⟨hfoods, hseg, _, hg1, hg2, _, hold⟩ := h.1 (by decide)
  exact ⟨hseg, hg1, hg2, hfoods, (hold 0 (Or.inr (by decide))).1,
    (game_over_resets sampleWorld 0 (by decide) (by decide) (by decide)).2 rfl⟩

/-- Claim C5: the input resolver picks its candidate by the priority order
Left, Right, Down, Up among the pressed keys (first match wins; none
pressed keeps the current direction) and updates the heading to the
candidate unless the candidate equals the opposite of the current
direction; in particular, requesting opposite(D) with no other key pressed
leaves the heading at D. -/
theorem snake_movement_input_resolution
    (keys : KeysPressed) (w : World) (e : Entity) (d : Direction)
    (hs : List (Entity × Direction))
    (hheads : w.heads = (e, d) :: hs) :
    (keys.left = true → resolveKeyboardDirection keys d = Direction.Left) ∧
    (keys.left = false → keys.right = true →
      resolveKeyboardDirection keys d = Direction.Right) ∧
    (keys.left = false → keys.right = false → keys.down = true →
      resolveKeyboardDirection keys d = Direction.Down) ∧
    (keys.left = false → keys.right = false → keys.down = false → keys.up = true →
      resolveKeyboardDirection keys d = Direction.Up) ∧
    (keys.left = false → keys.right = false → keys.down = false → keys.up = false →
      resolveKeyboardDirection keys d = d) ∧
    (snake_movement_input keys w).heads =
      (e, if resolveKeyboardDirection keys d = d.opposite then d
        else resolveKeyboardDirection keys d) :: hs ∧
    (snake_movement_input (keysFor d.opposite) w).heads = (e, d) :: hs := by
  refine ⟨?_, ?_, ?_, ?_, ?_, ?_, ?_⟩
  · intro h1
    simp [resolveKeyboardDirection, h1]
  · intro h1 h2
    simp [resolveKeyboardDirection, h1, h2]
  · intro h1 h2 h3
    simp [resolveKeyboardDirection, h1, h2, h3]
  · intro h1 h2 h3 h4
    simp [resolveKeyboardDirection, h1, h2, h3, h4]
  · intro h1 h2 h3 h4
    simp [resolveKeyboardDirection, h1, h2, h3, h4]
  · unfold snake_movement_input
    rw [hheads]
    dsimp only
    by_cases hc : resolveKeyboardDirection keys d = d.opposite
    · rw [if_neg (not_not_intro hc), if_pos hc, hheads]
    · rw [if_pos hc, if_neg hc]
  · have hres : resolveKeyboardDirection (keysFor d.opposite) d = d.opposite := by
      cases d <;> rfl
    unfold snake_movement_input
    rw [hheads]
    dsimp only
    rw [if_neg (not_not_intro hres), hheads]

/-- Witness for C5: pressing Down while heading Up leaves the heading Up,
and Left beats Right when both are pressed. -/
theorem snake_movement_input_resolution_witness :
    (snake_movement_input (keysFor Direction.Up.opposite) sampleWorld).heads
      = [(0, Direction.Up)] ∧
    resolveKeyboardDirection ⟨true, true, false, false⟩ Direction.Up = Direction.Left := by
  have h := snake_movement_input_resolution (keysFor Direction.Up.opposite) sampleWorld 0
    Direction.Up [] rfl
  have h2 := snake_movement_input_resolution ⟨true, true, false, false⟩ sampleWorld 0
    Direction.Up [] rfl
  exact ⟨h.2.2.2.2.2.2, h2.1 rfl⟩

/-- The cell chosen by the food spawner lies on the grid for every pair of
random draws in [0, 1). -/
theorem foodPos_inBounds (rx ry : Rat)
    (h1 : 0 ≤ rx) (h2 : rx < 1) (h3 : 0 ≤ ry) (h4 : ry < 1) :
    inBounds ⟨Int.floor (rx * (ARENA_WIDTH : Rat)), Int.floor (ry * (ARENA_HEIGHT : Rat))⟩ := by
  have hW : ((ARENA_WIDTH : Int) : Rat) = 10 := by norm_num [ARENA_WIDTH]
  have hH : ((ARENA_HEIGHT : Int) : Rat) = 10 := by norm_num [ARENA_HEIGHT]
  have hx0 : (0 : Int) ≤ Int.floor (rx * (ARENA_WIDTH : Rat)) := by
    apply Int.le_floor.mpr
    rw [hW]
    have hm : (0 : Rat) ≤ rx * 10 := mul_nonneg h1 (by norm_num)
    exact_mod_cast hm
  have hx1 : Int.floor (rx * (ARENA_WIDTH : Rat)) < ARENA_WIDTH := by
    apply Int.floor_lt.mpr
    rw [hW]
    linarith
  have hy0 : (0 : Int) ≤ Int.floor (ry * (ARENA_HEIGHT : Rat)) := by
    apply Int.le_floor.mpr
    rw [hH]
    have hm : (0 : Rat) ≤ ry * 10 := mul_nonneg h3 (by norm_num)
    exact_mod_cast hm
  have hy1 : Int.floor (ry * (ARENA_HEIGHT : Rat)) < ARENA_HEIGHT := by
    apply Int.floor_lt.mpr
    rw [hH]
    linarith
  exact ⟨hx0, hx1, hy0, hy1⟩

/-- Claim C9: every invocation of the food spawner spawns exactly one new
Food entity whose cell lies in [0, W) x [0, H) for every value of the
random draws in [0, 1), and it never despawns, moves or otherwise modifies
any existing entity: all other components and resources are untouched. -/
theorem food_spawner_spec
    (w : World) (rx ry : Rat)
    (h1 : 0 ≤ rx) (h2 : rx < 1) (h3 : 0 ≤ ry) (h4 : ry < 1) :
    (food_spawner w rx ry).foods = w.foods ++ [w.nextId] ∧
    (food_spawner w rx ry).positions = w.positions ++
      [(w.nextId, ⟨Int.floor (rx * (ARENA_WIDTH : Rat)),
        Int.floor (ry * (ARENA_HEIGHT : Rat))⟩)] ∧
    inBounds ⟨Int.floor (rx * (ARENA_WIDTH : Rat)),
      Int.floor (ry * (ARENA_HEIGHT : Rat))⟩ ∧
    (food_spawner w rx ry).heads = w.heads ∧
    (food_spawner w rx ry).segmentTags = w.segmentTags ∧
    (food_spawner w rx ry).snakeSegments = w.snakeSegments ∧
    (food_spawner w rx ry).lastTailPosition = w.lastTailPosition ∧
    (food_spawner w rx ry).nextId = w.nextId + 1 :=
  ⟨rfl, rfl, foodPos_inBounds rx ry h1 h2 h3 h4, rfl, rfl, rfl, rfl, rfl⟩

/-- Witness for C9 with draws 1/2 and 9/10 on the startup world. -/
theorem food_spawner_spec_witness :
    (0 : Rat) ≤ 1 / 2 ∧ (1 / 2 : Rat) < 1 ∧
    (food_spawner sampleWorld (1 / 2) (9 / 10)).foods = [2] ∧
    inBounds ⟨Int.floor ((1 / 2 : Rat) * (ARENA_WIDTH : Rat)),
      Int.floor ((9 / 10 : Rat) * (ARENA_HEIGHT : Rat))⟩ := by
  have h := food_spawner_spec sampleWorld (1 / 2) (9 / 10) (by norm_num) (by norm_num)
    (by norm_num) (by norm_num)
  exact ⟨by norm_num, by norm_num, h.1, h.2.2.1⟩

/-! ### Bounds invariant helpers -/

theorem getLast?_mem {α : Type} : ∀ (l : List α) (a : α), l.getLast? = some a → a ∈ l := by
  intro l
  induction l with
  | nil => intro a h; simp at h
  | cons b l ih =>
    intro a h
    cases l with
    | nil =>
      simp only [List.getLast?_singleton, Option.some.injEq] at h
      rw [← h]
      exact List.mem_cons_self _ _
    | cons c l2 =>
      rw [List.getLast?_cons_cons] at h
      exact List.mem_cons_of_mem _ (ih a h)

theorem fst_mem_of_mem_zip {α β : Type} :
    ∀ (l₁ : List α) (l₂ : List β) (pr : α × β), pr ∈ l₁.zip l₂ → pr.1 ∈ l₁ := by
  intro l₁
  induction l₁ with
  | nil =>
    intro l₂ pr h
    have h2 : pr ∈ ([] : List (α × β)) := h
    simp at h2
  | cons a l₁ ih =>
    intro l₂ pr h
    cases l₂ with
    | nil =>
      have h2 : pr ∈ ([] : List (α × β)) := h
      simp at h2
    | cons b l₂ =>
      have h2 : pr ∈ (a, b) :: l₁.zip l₂ := h
      rcases List.mem_cons.mp h2 with h1 | h1
      · rw [h1]
        exact List.mem_cons_self _ _
      · exact List.mem_cons_of_mem _ (ih l₂ pr h1)

theorem foldl_despawn_inBounds (L : List Entity) (w : World) (hv : WorldInBounds w) :
    WorldInBounds (L.foldl despawn w) := by
  constructor
  · intro q hq
    exact hv.1 q (foldl_despawn_positions_sub L w q hq)
  · intro p hp
    apply hv.2 p
    rw [← (foldl_despawn_same L w).2.2]
    exact hp

theorem spawn_snake_inBounds (v : World) (hv : WorldInBounds v) :
    WorldInBounds (spawn_snake v) := by
  constructor
  · intro q hq
    have hq2 : q ∈ (v.positions ++ [(v.nextId, Position.mk 3 3)])
        ++ [(v.nextId + 1, Position.mk 3 2)] := hq
    rcases List.mem_append.mp hq2 with hc | hc
    · rcases List.mem_append.mp hc with hc2 | hc2
      · exact hv.1 q hc2
      · rw [List.mem_singleton] at hc2
        rw [hc2]
        exact show inBounds (Position.mk 3 3) from by decide
    · rw [List.mem_singleton] at hc
      rw [hc]
      exact show inBounds (Position.mk 3 2) from by decide
  · intro p hp
    exact hv.2 p hp

/-- Claim C6: with W = H = 10, every position held by any entity lies in
[0, W) x [0, H) initially and every operation (movement with wrap and body
shift, food spawning, the startup spawn, game-over reset, growth) keeps
every position it creates or moves inside the grid; the cached tail
position also stays on the grid. -/
theorem position_bounds_invariant (w : World) (hw : WorldInBounds w) :
    (∀ w' ev, snake_movement w = some (w', ev) → WorldInBounds w') ∧
    (∀ rx ry : Rat, 0 ≤ rx → rx < 1 → 0 ≤ ry → ry < 1 →
      WorldInBounds (food_spawner w rx ry)) ∧
    WorldInBounds (spawn_snake w) ∧
    (∀ n, WorldInBounds (game_over w n)) ∧
    (∀ n w', snake_growth w n = some w' → WorldInBounds w') := by
  refine ⟨?_, ?_, ?_, ?_, ?_⟩
  · intro w' ev hrun
    cases hheads : w.heads with
    | nil =>
      rw [snake_movement_heads_nil w hheads] at hrun
      injection hrun with hp
      injection hp with hw1 _
      subst hw1
      exact hw
    | cons hd tl =>
      rcases hd with ⟨h, d⟩
      cases hsnap : snapshotPositions w w.snakeSegments with
      | none =>
        unfold snake_movement at hrun
        rw [hheads] at hrun
        dsimp only at hrun
        rw [hsnap] at hrun
        cases hget : getPosition w h <;> rw [hget] at hrun <;> simp at hrun
      | some prev =>
        cases hget : getPosition w h with
        | none =>
          unfold snake_movement at hrun
          rw [hheads] at hrun
          dsimp only at hrun
          rw [hsnap, hget] at hrun
          simp at hrun
        | some p0 =>
          have heq := snake_movement_eq w h d tl prev p0 hheads hsnap hget
          rw [heq] at hrun
          injection hrun with hpair
          dsimp only at hpair
          injection hpair with hww _
          subst hww
          constructor
          · intro q hq
            have hq2 : q ∈ (writeSegments (setPosition w h (wrapHead (stepDir d p0)))
                (prev.zip (w.snakeSegments.drop 1))).positions := hq
            rcases mem_writeSegments _ _ q hq2 with hcase | hcase
            · rcases hcase with ⟨pr, hprmem, hqe⟩
              have hfst : pr.1 ∈ prev := fst_mem_of_mem_zip prev _ pr hprmem
              rcases snapshotPositions_mem _ w prev pr.1 hsnap hfst with ⟨e2, _, hval⟩
              have hb := hw.1 _ (lookupPos_mem _ _ _ hval)
              rw [hqe]
              exact hb
            · rcases mem_setPos _ _ _ q hcase with hc2 | hc2
              · have hbp0 := hw.1 _ (lookupPos_mem _ _ _ hget)
                rw [hc2]
                exact stepDir_wrapHead_inBounds d p0 hbp0
              · exact hw.1 _ hc2
          · intro p hp
            have hp2 : prev.getLast? = some p := hp
            rcases snapshotPositions_mem _ w prev p hsnap (getLast?_mem prev p hp2)
              with ⟨e2, _, hval⟩
            exact hw.1 _ (lookupPos_mem _ _ _ hval)
  · intro rx ry h1 h2 h3 h4
    constructor
    · intro q hq
      have hq2 : q ∈ w.positions ++ [(w.nextId,
          ⟨Int.floor (rx * (ARENA_WIDTH : Rat)), Int.floor (ry * (ARENA_HEIGHT : Rat))⟩)] := hq
      rcases List.mem_append.mp hq2 with hc | hc
      · exact hw.1 q hc
      · rw [List.mem_singleton] at hc
        rw [hc]
        exact foodPos_inBounds rx ry h1 h2 h3 h4
    · intro p hp
      exact hw.2 p hp
  · exact spawn_snake_inBounds w hw
  · intro n
    unfold game_over
    by_cases hn : 1 ≤ n
    · rw [if_pos hn]
      exact spawn_snake_inBounds _ (foldl_despawn_inBounds _ w hw)
    · rw [if_neg hn]
      exact hw
  · intro n w' hrun
    unfold snake_growth at hrun
    by_cases hn : 1 ≤ n
    · rw [if_pos hn] at hrun
      cases hltp : w.lastTailPosition with
      | none =>
        rw [hltp] at hrun
        simp at hrun
      | some p =>
        rw [hltp] at hrun
        dsimp only at hrun
        injection hrun with hww
        subst hww
        have hbp : inBounds p := hw.2 p hltp
        constructor
        · intro q hq
          have hq2 : q ∈ w.positions ++ [(w.nextId, p)] := hq
          rcases List.mem_append.mp hq2 with hc | hc
          · exact hw.1 q hc
          · rw [List.mem_singleton] at hc
            rw [hc]
            exact hbp
        · intro p2 hp2
          exact hw.2 p2 hp2
    · rw [if_neg hn] at hrun
      injection hrun with hww
      subst hww
      exact hw

/-- Witness for C6: the startup world is in bounds, and so is the world
after one movement tick. -/
theorem position_bounds_invariant_witness :
    WorldInBounds sampleWorld ∧ WorldInBounds sampleWorldMoved := by
  have hwb : WorldInBounds sampleWorld :=
    ⟨by decide, fun p hp => Option.noConfusion hp⟩
  have h := position_bounds_invariant sampleWorld hwb
  exact ⟨hwb, h.1 sampleWorldMoved false (by decide)⟩

end BevySnake
